import Mathlib

/-!
Verification of the graphrag-anthropic-llamaindex query/indexing engine.

Python strings are modelled as `List Char`; Python `dict` rows become Lean
structures; the LLM, the SHA-256 hash, the node parser and the clustering
library are external collaborators and enter the model as explicit function
parameters; fallible operations return `Option`.
-/

namespace GraphRag

/-! ## `llm_utils._stitch_responses` (src/graphrag_anthropic_llamaindex/llm_utils.py) -/

/-- Python `s.endswith(t)`. -/
def pyEndsWith (s t : List Char) : Bool :=
  t.isSuffixOf s

/-- The loop `for k in range(min(len(s1), len(s2), search_window), 0, -1)` of
`_stitch_responses`: returns the largest `k ≤ n` with `s1.endswith(s2[:k])`,
and `0` when no such `k` exists (Python leaves `max_overlap = 0`). -/
def overlapSearch (s1 s2 : List Char) : Nat → Nat
  | 0 => 0
  | k + 1 => if pyEndsWith s1 (s2.take (k + 1)) then k + 1 else overlapSearch s1 s2 k

/-- `_stitch_responses(s1, s2)`: append `s2` to `s1` after removing the longest
overlap (at most `search_window = 200` characters) of a suffix of `s1` with a
prefix of `s2`. -/
def stitch_responses (s1 s2 : List Char) : List Char :=
  if s1 = [] then s2
  else if s2 = [] then s1
  else s1 ++ s2.drop (overlapSearch s1 s2 (min (min s1.length s2.length) 200))

/-! ## `llm_utils.parse_llm_json_output`

`str.find` / `str.rfind` return the first / last index of a substring
(`Option Nat` models Python's `-1` for "not found"); `json.loads` is the
external JSON decoder, passed in as a function returning `Option` (its
`JSONDecodeError`, the only exception it raises on string input, is the
`none` case caught by the `try/except` of the source). -/

/-- Scanner for Python `s.find(pat)`: first index at which `pat` occurs. -/
def pyFindGo (pat : List Char) : List Char → Nat → Option Nat
  | [], i => if pat.isPrefixOf [] then some i else none
  | c :: rest, i =>
    if pat.isPrefixOf (c :: rest) then some i else pyFindGo pat rest (i + 1)

/-- Python `s.find(pat)` (`none` models `-1`). -/
def pyFind (s pat : List Char) : Option Nat :=
  pyFindGo pat s 0

/-- Scanner for Python `s.rfind(pat)`: remembers the last index that matched. -/
def pyRFindGo (pat : List Char) : List Char → Nat → Option Nat → Option Nat
  | [], i, acc => if pat.isPrefixOf [] then some i else acc
  | c :: rest, i, acc =>
    pyRFindGo pat rest (i + 1) (if pat.isPrefixOf (c :: rest) then some i else acc)

/-- Python `s.rfind(pat)` (`none` models `-1`). -/
def pyRFind (s pat : List Char) : Option Nat :=
  pyRFindGo pat s 0 none

/-- Python `s.strip()`. -/
def pyStrip (s : List Char) : List Char :=
  ((s.dropWhile Char.isWhitespace).reverse.dropWhile Char.isWhitespace).reverse

/-- Python `s[a:b]` for `0 ≤ a` and `0 ≤ b`. -/
def pySlice (s : List Char) (a b : Nat) : List Char :=
  (s.take b).drop a

def startTagChars : List Char := "[START_JSON]".toList

def endTagChars : List Char := "[END_JSON]".toList

/-- The fallback branch of `parse_llm_json_output`: un-fence ```` ```json ````
or ```` ``` ```` blocks, then cut from the first `\x7b` to the last `\x7d`. -/
def jsonFallbackCandidate (s : List Char) : List Char :=
  let t := pyStrip s
  let u :=
    if "```json".toList.isPrefixOf t && "```".toList.isSuffixOf t then
      pyStrip (pySlice t 7 (t.length - 3))
    else if "```".toList.isPrefixOf t && "```".toList.isSuffixOf t then
      pyStrip (pySlice t 3 (t.length - 3))
    else s
  match pyFind u ['\x7b'], pyRFind u ['\x7d'] with
  | some i, some j => if i < j then pySlice u i (j + 1) else u
  | _, _ => u

/-- The string handed to `json.loads` by `parse_llm_json_output`: the content
between the first `[START_JSON]` and the last `[END_JSON]` when both tags are
present in that order, otherwise the fallback candidate. -/
def extract_json_candidate (s : List Char) : List Char :=
  match pyFind s startTagChars, pyRFind s endTagChars with
  | some i, some j =>
      if i < j then pyStrip (pySlice s (i + startTagChars.length) j)
      else jsonFallbackCandidate s
  | _, _ => jsonFallbackCandidate s

/-- `parse_llm_json_output(json_string)`: run `json.loads` on the extracted
candidate; `none` is Python's `None` on `JSONDecodeError`. -/
def parse_llm_json_output {J : Type} (loads : List Char → Option J) (s : List Char) :
    Option J :=
  loads (extract_json_candidate s)

/-! ## `global_search/context_builder.py` — `CommunityContextBuilder`

A community report row (`_retrieve_community_reports` dict) carries `id`,
`content`, `rank`, and metadata `title` / `occurrence` (absent keys are
`Option`); `weight` is the key written by `apply_community_weights`.
Occurrence and weight values are modelled as rationals; the `f"{w:.3f}"`
float rendering enters `_format_report` as an explicit `fmtWeight`
parameter since only the rendered length matters to batching. -/

structure Report where
  id : List Char
  content : List Char
  rank : Int
  title : Option (List Char)
  occurrence : Option ℚ
  weight : ℚ
  deriving DecidableEq

/-- Decimal digits of a natural number (fuel-based so that it reduces). -/
def natDigitsGo : Nat → Nat → List Char
  | 0, n => [Char.ofNat (48 + n % 10)]
  | fuel + 1, n =>
    if n < 10 then [Char.ofNat (48 + n)]
    else natDigitsGo fuel (n / 10) ++ [Char.ofNat (48 + n % 10)]

/-- Python `f"{n}"` for an `int`. -/
def intChars : Int → List Char
  | .ofNat n => natDigitsGo n n
  | .negSucc n => '-' :: natDigitsGo (n + 1) (n + 1)

/-- `_count_tokens` with `token_encoder=None`: `len(text) // 4`. -/
def count_tokens (text : List Char) : Nat :=
  text.length / 4

/-- `_format_report`: the row `id|title|content|rank|weight` (title defaults
to `"Report"`, weight rendering passed in as `fmtWeight`). -/
def format_report (fmtWeight : ℚ → List Char) (r : Report) : List Char :=
  r.id ++ '|' :: (r.title.getD "Report".toList) ++ '|' :: r.content ++ '|' ::
    intChars r.rank ++ '|' :: fmtWeight r.weight ++ ['\n']

def batchHeader : List Char :=
  "-----Reports-----\nid|title|content|rank|weight\n".toList

structure Batch where
  context : List Char
  records : List Report
  tokens : Nat
  report_ids : List (List Char)
  deriving DecidableEq

/-- A fresh batch as initialized by `_create_batches`: header only. -/
def emptyBatch : Batch :=
  ⟨batchHeader, [], count_tokens batchHeader, []⟩

/-- Appending one report row to the current batch. -/
def pushReport (b : Batch) (r : Report) (row : List Char) : Batch :=
  ⟨b.context ++ row, b.records ++ [r], b.tokens + count_tokens row, b.report_ids ++ [r.id]⟩

/-- The loop of `_create_batches`: close the current batch (if it holds any
record) whenever the next row would push it past `max_context_tokens`, then
append the row to the (possibly fresh) current batch. -/
def create_batches_go (fmtWeight : ℚ → List Char) (maxTok : Nat) :
    List Report → List Batch → Batch → List Batch
  | [], acc, cur => if cur.records.isEmpty then acc else acc ++ [cur]
  | r :: rs, acc, cur =>
    let row := format_report fmtWeight r
    let rt := count_tokens row
    if maxTok < cur.tokens + rt then
      let acc' := if cur.records.isEmpty then acc else acc ++ [cur]
      create_batches_go fmtWeight maxTok rs acc' (pushReport emptyBatch r row)
    else
      create_batches_go fmtWeight maxTok rs acc (pushReport cur r row)

/-- `_create_batches`. -/
def create_batches (fmtWeight : ℚ → List Char) (maxTok : Nat)
    (reports : List Report) : List Batch :=
  create_batches_go fmtWeight maxTok reports [] emptyBatch

/-- `report.get("metadata", \x7b\x7d).get("occurrence", 1.0)`. -/
def occurrence_of (r : Report) : ℚ :=
  r.occurrence.getD 1

/-- Python `max` over a list (callers guarantee nonemptiness). -/
def pyMax : List ℚ → ℚ
  | [] => 0
  | x :: xs => xs.foldl max x

/-- `apply_community_weights(reports, normalize)`: set each report's `weight`
to its `occurrence` (default 1.0), divide by the maximum weight when
normalizing and the maximum is positive, then sort by weight descending
(Python's stable `list.sort(key=..., reverse=True)` is a stable merge sort). -/
def apply_community_weights (normalize : Bool) (reports : List Report) : List Report :=
  if reports.isEmpty then []
  else
    let weighted := reports.map fun r => { r with weight := occurrence_of r }
    let normalized :=
      if normalize then
        let maxW := pyMax (weighted.map Report.weight)
        if 0 < maxW then weighted.map fun r => { r with weight := r.weight / maxW }
        else weighted
      else weighted
    normalized.mergeSort fun a b => decide (b.weight ≤ a.weight)

/-! ## `global_search/router.py` — `SearchModeRouter`

`pyLower` models `str.lower()` on the ASCII letters, which covers the
keyword lists and the queries at issue (the Japanese keywords have no case). -/

inductive SearchMode where
  | LOCAL
  | GLOBAL
  | DRIFT
  | AUTO
  deriving DecidableEq

def globalKeywords : List (List Char) :=
  ["全体".toList, "概要".toList, "サマリー".toList, "要約".toList, "まとめ".toList,
   "overall".toList, "summary".toList, "overview".toList, "general".toList]

def localKeywords : List (List Char) :=
  ["詳細".toList, "具体的".toList, "特定".toList, "detail".toList, "specific".toList,
   "particular".toList, "exact".toList]

/-- `query.lower()`. -/
def pyLower (s : List Char) : List Char :=
  s.map Char.toLower

/-- `any(kw in query_lower for kw in keywords)` — `kw in q` is substring
containment, i.e. `q.find(kw) != -1`. -/
def anyKeyword (kws : List (List Char)) (q : List Char) : Bool :=
  kws.any fun kw => (pyFind q kw).isSome

structure SearchModeRouter where
  mode : SearchMode
  globalAvailable : Bool
  localAvailable : Bool
  deriving DecidableEq

/-- `SearchModeRouter.__init__`: `self.local_retriever = None` always (the
local-search integration is an unimplemented TODO); the global retriever is
constructed when a community vector store is supplied or the mode is GLOBAL,
and its construction may still fail (`globalInitOk`). -/
def routerInit (mode : SearchMode) (hasCommunityStore globalInitOk : Bool) :
    SearchModeRouter :=
  { mode := mode
    globalAvailable := (hasCommunityStore || decide (mode = SearchMode.GLOBAL)) && globalInitOk
    localAvailable := false }

/-- `SearchModeRouter._auto_select_mode`: keyword-based selection, gated on
the corresponding retriever being initialized, with a GLOBAL-first fallback. -/
def auto_select_mode (r : SearchModeRouter) (query : List Char) : SearchMode :=
  let ql := pyLower query
  if anyKeyword globalKeywords ql && r.globalAvailable then SearchMode.GLOBAL
  else if anyKeyword localKeywords ql && r.localAvailable then SearchMode.LOCAL
  else if r.globalAvailable then SearchMode.GLOBAL
  else if r.localAvailable then SearchMode.LOCAL
  else SearchMode.GLOBAL

/-- `SearchModeRouter.route`: an explicit mode argument wins; otherwise AUTO
delegates to `_auto_select_mode` and any other configured mode is returned
as-is. -/
def route (r : SearchModeRouter) (query : List Char) (modeArg : Option SearchMode) :
    SearchMode :=
  match modeArg with
  | some m => m
  | none =>
    if r.mode = SearchMode.AUTO then auto_select_mode r query else r.mode

/-! ## `global_search/map_processor.py` — `MapProcessor.process_batch`

The per-batch map task (`_process_single_batch`: prompt construction, LLM
call, key-point extraction) is the external parameter `task`; a raised
exception is the `Except.error` case, which `asyncio.gather(...,
return_exceptions=True)` hands back in the task's input-order slot.
`KeyPoint.source_metadata` and timing do not affect collection and are
modelled as-is minus the metadata dictionary. -/

structure KeyPoint where
  description : List Char
  score : Int
  report_ids : List (List Char)
  deriving DecidableEq

structure MapResult where
  batch_id : Nat
  key_points : List KeyPoint
  context_tokens : Nat
  processing_time : ℚ
  deriving DecidableEq

/-- `MapProcessor.process_batch`: one result slot per batch, in batch order; a
task that raised is replaced by a `MapResult` with `batch_id = i`, empty
`key_points`, the batch's token count, and zero processing time. -/
def process_batch (task : Nat → Batch → Except (List Char) MapResult)
    (batches : List Batch) : List MapResult :=
  batches.enum.map fun p =>
    match task p.1 p.2 with
    | Except.ok r => r
    | Except.error _ => ⟨p.1, [], p.2.tokens, 0⟩

/-! ## `drift_search/models.py` — `SearchContext`

Fields that play no role in token counting or trimming (`attributes`,
`relationships`, `embedding`, `chunk_id`, `document_id`, `metadata`) are
omitted from the embedding. -/

namespace Drift

structure Entity where
  id : List Char
  name : List Char
  type : List Char
  description : List Char
  deriving DecidableEq

structure Community where
  id : List Char
  title : List Char
  summary : List Char
  level : Int
  deriving DecidableEq

structure TextUnit where
  id : List Char
  text : List Char
  deriving DecidableEq

structure SearchContext where
  query : List Char
  entities : List Entity
  communities : List Community
  text_units : List TextUnit
  deriving DecidableEq

/-- `SearchContext.get_token_count`: total characters of the query, entity
names and descriptions, community titles and summaries, and text-unit texts,
divided by 4. -/
def get_token_count (c : SearchContext) : Nat :=
  (c.query.length
    + (c.entities.map (fun e => e.name.length + e.description.length)).sum
    + (c.communities.map (fun co => co.title.length + co.summary.length)).sum
    + (c.text_units.map (fun t => t.text.length)).sum) / 4

/-- One of the three `while` loops of `trim_to_token_limit`: keep `pop()`-ing
the last element while the list is nonempty and the recomputed context token
count still exceeds the limit.  Fuel is the list length, which bounds the
number of pops. -/
def trimLoop {α : Type} (count : List α → Nat) (maxTokens : Nat) :
    Nat → List α → List α
  | 0, l => l
  | fuel + 1, l =>
    if ¬l.isEmpty ∧ maxTokens < count l then
      trimLoop count maxTokens fuel l.dropLast
    else l

/-- `SearchContext.trim_to_token_limit`: return the context unchanged when it
fits, otherwise drop text units, then entities, then communities, re-checking
the token count after each pop. -/
def trim_to_token_limit (c : SearchContext) (maxTokens : Nat) : SearchContext :=
  if get_token_count c ≤ maxTokens then c
  else
    let tu := trimLoop (fun l => get_token_count { c with text_units := l })
      maxTokens c.text_units.length c.text_units
    let t1 : SearchContext := { c with text_units := tu }
    let en := trimLoop (fun l => get_token_count { t1 with entities := l })
      maxTokens t1.entities.length t1.entities
    let t2 : SearchContext := { t1 with entities := en }
    let co := trimLoop (fun l => get_token_count { t2 with communities := l })
      maxTokens t2.communities.length t2.communities
    { t2 with communities := co }

end Drift

/-! ## `document_processor.add_documents` + the `db_manager` tables

The document loader's `extra_info` lookup chain
(`virtual_path` / `source_path` / `file_name`) is collapsed into the resolved
`sourcePath` field, and `extra_info.get('source_archive', source_path)` into
`originalPath`.  SHA-256 (`hash`), the node parser (`chunker`), the
extraction LLM round-trip (`extract` = continuation call + JSON parse of the
extraction prompt on a chunk text), the summarization round-trip
(`summarize`) and the Leiden clustering (`cluster`) are external
collaborators passed as functions.  The second component of the result
counts the logical LLM round-trips issued (one per chunk for extraction, one
per chunk again for the summarization pass's entity map, one per community
summarized). -/

namespace Ingest

structure Doc where
  text : List Char
  sourcePath : List Char
  originalPath : List Char
  deriving DecidableEq

structure ProcessedFile where
  filepath : List Char
  hash : List Char
  original_path : List Char
  deriving DecidableEq

structure XEntity where
  name : List Char
  type : List Char
  deriving DecidableEq

structure XRelationship where
  source : List Char
  target : List Char
  type : List Char
  description : List Char
  deriving DecidableEq

structure ExtractionResult where
  entities : List XEntity
  relationships : List XRelationship
  deriving DecidableEq

structure Community where
  level : Int
  cluster_id : Int
  parent_cluster : Int
  nodes : List (List Char)
  deriving DecidableEq

structure CommunitySummary where
  community_id : Int
  summary : List Char
  key_entities : List (List Char)
  deriving DecidableEq

/-- The five persisted Parquet tables of `db_manager`. -/
structure Tables where
  processed_files : List ProcessedFile
  entities : List XEntity
  relationships : List XRelationship
  communities : List Community
  community_summaries : List CommunitySummary
  deriving DecidableEq

/-- `_calculate_document_hash`: SHA-256 of `f"\x7btext\x7d:\x7bsource_path\x7d"`. -/
def calc_document_hash (hash : List Char → List Char) (d : Doc) : List Char :=
  hash (d.text ++ ':' :: d.sourcePath)

/-- `pandas.DataFrame.drop_duplicates(subset=key)`: keep the first row for
each key. -/
def dedupByGo {α β : Type} [DecidableEq β] (key : α → β) (seen : List β) :
    List α → List α
  | [] => []
  | x :: xs =>
    if key x ∈ seen then dedupByGo key seen xs
    else x :: dedupByGo key (key x :: seen) xs

def dedupBy {α β : Type} [DecidableEq β] (key : α → β) (l : List α) : List α :=
  dedupByGo key [] l

/-- The `entity_to_node_text` dictionary built by the summarization pass: a
second extraction round over every chunk, later chunks overwriting earlier
ones for the same entity name. -/
def entityToNodeText (extract : List Char → Option ExtractionResult)
    (nodes : List (List Char)) : List (List Char × List Char) :=
  nodes.flatMap fun nd =>
    match extract nd with
    | some r => r.entities.map fun e => (e.name, nd)
    | none => []

/-- Dictionary lookup where the latest insertion wins. -/
def lookupLast (m : List (List Char × List Char)) (key : List Char) :
    Option (List Char) :=
  (m.reverse.find? fun p => decide (p.1 = key)).map Prod.snd

/-- `add_documents`: skip documents whose hash is already recorded; when no
new document remains, return before any extraction (zero LLM calls and no
table write).  Otherwise chunk, extract entities and relationships, merge
them into the tables deduplicating entities on `(name, type)` and
relationships on the full tuple, optionally detect and summarize
communities, and finally append the newly processed hashes. -/
def add_documents (hash : List Char → List Char)
    (chunker : List Doc → List (List Char))
    (extract : List Char → Option ExtractionResult)
    (summarize : List Char → Option CommunitySummary)
    (cluster : List XRelationship → List Community)
    (communityDetectionConfigured : Bool)
    (t : Tables) (docs : List Doc) : Tables × Nat :=
  let processedHashes := t.processed_files.map ProcessedFile.hash
  let newly := (docs.filter fun d =>
      decide (calc_document_hash hash d ∉ processedHashes)).map
    fun d => ProcessedFile.mk d.sourcePath (calc_document_hash hash d) d.originalPath
  let newDocs := docs.filter fun d =>
    decide (calc_document_hash hash d ∉ processedHashes)
  if newDocs.isEmpty then (t, 0)
  else
    let nodes := chunker newDocs
    let extracted := nodes.filterMap extract
    let extractedEntities := extracted.flatMap ExtractionResult.entities
    let extractedRelationships := extracted.flatMap ExtractionResult.relationships
    let entities' :=
      if extractedEntities.isEmpty then t.entities
      else dedupBy (fun e => (e.name, e.type)) (t.entities ++ extractedEntities)
    let relationships' :=
      if extractedRelationships.isEmpty then t.relationships
      else dedupBy (fun r => (r.source, r.target, r.type, r.description))
        (t.relationships ++ extractedRelationships)
    let commState :=
      if ¬extractedRelationships.isEmpty ∧ communityDetectionConfigured then
        let comms := cluster extractedRelationships
        if comms.isEmpty then (t.communities, t.community_summaries, 0)
        else
          let communities' :=
            dedupBy (fun c => (c.level, c.cluster_id)) (t.communities ++ comms)
          let entityMap := entityToNodeText extract nodes
          let sums := comms.filterMap fun c =>
            let parts := c.nodes.filterMap fun nm => lookupLast entityMap nm
            if parts.isEmpty then none
            else (summarize (List.intercalate [' '] parts)).map
              fun s => { s with community_id := c.cluster_id }
          let summaries' :=
            if sums.isEmpty then t.community_summaries
            else dedupBy CommunitySummary.community_id (t.community_summaries ++ sums)
          (communities', summaries',
            nodes.length + comms.countP fun c =>
              !(c.nodes.filterMap fun nm => lookupLast entityMap nm).isEmpty)
      else (t.communities, t.community_summaries, 0)
    (⟨t.processed_files ++ newly, entities', relationships', commState.1, commState.2.1⟩,
      nodes.length + commState.2.2)

end Ingest

theorem overlapSearch_le (s1 s2 : List Char) : ∀ n, overlapSearch s1 s2 n ≤ n
  | 0 => Nat.le_refl 0
  | k + 1 => by
    unfold overlapSearch
    split
    · exact Nat.le_refl _
    · exact Nat.le_succ_of_le (overlapSearch_le s1 s2 k)

theorem overlapSearch_isSuffix (s1 s2 : List Char) :
    ∀ n, (s2.take (overlapSearch s1 s2 n)).IsSuffix s1
  | 0 => by simp [overlapSearch]
  | k + 1 => by
    unfold overlapSearch
    split
    · next h =>
      simpa [pyEndsWith, List.isSuffixOf_iff_suffix] using h
    · exact overlapSearch_isSuffix s1 s2 k

theorem le_overlapSearch (s1 s2 : List Char) {j : Nat}
    (hsfx : (s2.take j).IsSuffix s1) :
    ∀ n, j ≤ n → j ≤ overlapSearch s1 s2 n
  | 0, hj => hj
  | k + 1, hj => by
    unfold overlapSearch
    split
    · exact hj
    · next h =>
      rcases Nat.lt_or_ge j (k + 1) with hlt | hge
      · exact le_overlapSearch s1 s2 hsfx k (Nat.lt_succ_iff.mp hlt)
      · exfalso
        have hj' : j = k + 1 := Nat.le_antisymm hj hge
        exact h (by simpa [pyEndsWith, List.isSuffixOf_iff_suffix, hj'] using hsfx)

/-- After a non-degenerate stitch, `s2` is a suffix of the result:
the dropped prefix of `s2` is re-supplied by the matching suffix of `s1`. -/
theorem isSuffix_stitch_responses {s1 s2 : List Char} (h1 : s1 ≠ []) (h2 : s2 ≠ []) :
    s2.IsSuffix (stitch_responses s1 s2) := by
  have hsfx := overlapSearch_isSuffix s1 s2 (min (min s1.length s2.length) 200)
  obtain ⟨a', ha'⟩ := hsfx
  refine ⟨a', ?_⟩
  simp only [stitch_responses, if_neg h1, if_neg h2]
  calc a' ++ s2
      = a' ++ (s2.take (overlapSearch s1 s2 (min (min s1.length s2.length) 200)) ++
          s2.drop (overlapSearch s1 s2 (min (min s1.length s2.length) 200))) := by
        rw [List.take_append_drop]
    _ = s1 ++ s2.drop (overlapSearch s1 s2 (min (min s1.length s2.length) 200)) := by
        rw [← List.append_assoc, ha']

/-- When `s2` is itself a suffix of `s1` (of length at most the 200-character
search window), the overlap found is all of `s2` and the stitch returns `s1`. -/
theorem stitch_responses_eq_left {s1 s2 : List Char} (h1 : s1 ≠ [])
    (hsfx : s2.IsSuffix s1) (hlen : s2.length ≤ 200) :
    stitch_responses s1 s2 = s1 := by
  by_cases h2 : s2 = []
  · simp [stitch_responses, h1, h2]
  · have hle : s2.length ≤ s1.length := hsfx.length_le
    have hn : min (min s1.length s2.length) 200 = s2.length := by omega
    have hK : overlapSearch s1 s2 (min (min s1.length s2.length) 200) = s2.length := by
      refine Nat.le_antisymm ?_ ?_
      · calc overlapSearch s1 s2 _ ≤ min (min s1.length s2.length) 200 :=
              overlapSearch_le _ _ _
          _ = s2.length := hn
      · exact le_overlapSearch s1 s2 (by simpa using hsfx) _ (by omega)
    unfold stitch_responses
    rw [if_neg h1, if_neg h2, hK, List.drop_length, List.append_nil]

/-- C2 (amended): stitching is idempotent whenever the continuation `b` fits in
the 200-character search window (`stitch(stitch(a,b),b) = stitch(a,b)` for
`len(b) ≤ 200`); and whenever `b` starts with a suffix `s` of `a` with
`len(s) ≤ 200`, the overlap dropped at the join is at least `len(s)`, so that
suffix is not duplicated at the join point. -/
theorem stitch_responses_idem_and_no_dup :
    (∀ a b : List Char, b.length ≤ 200 →
      stitch_responses (stitch_responses a b) b = stitch_responses a b) ∧
    (∀ a b s : List Char, s.IsSuffix a → s.IsPrefix b → s.length ≤ 200 →
      ∃ k, s.length ≤ k ∧ stitch_responses a b = a ++ b.drop k) := by
  constructor
  · intro a b hb
    by_cases h2 : b = []
    · subst h2
      by_cases h1 : a = [] <;> simp [stitch_responses, h1]
    · by_cases h1 : a = []
      · subst h1
        have hb' : stitch_responses [] b = b := by simp [stitch_responses]
        rw [hb']
        exact stitch_responses_eq_left h2 (List.suffix_refl b) hb
      · have hc : stitch_responses a b ≠ [] := by
          simp [stitch_responses, h1, h2]
        exact stitch_responses_eq_left hc (isSuffix_stitch_responses h1 h2) hb
  · intro a b s hsfx hpre hs
    by_cases h1 : a = []
    · subst h1
      have hs0 : s = [] := List.suffix_nil.mp hsfx
      exact ⟨0, by simp [hs0], by simp [stitch_responses]⟩
    · by_cases h2 : b = []
      · subst h2
        have hs0 : s = [] := List.prefix_nil.mp hpre
        exact ⟨0, by simp [hs0], by simp [stitch_responses, h1]⟩
      · refine ⟨overlapSearch a b (min (min a.length b.length) 200), ?_, ?_⟩
        · have htake : b.take s.length = s := (List.prefix_iff_eq_take.mp hpre).symm
          have hla : s.length ≤ a.length := hsfx.length_le
          have hlb : s.length ≤ b.length := hpre.length_le
          exact le_overlapSearch a b (by rw [htake]; exact hsfx) _ (by omega)
        · simp [stitch_responses, h1, h2]

set_option maxRecDepth 4000 in
/-- C2 counterexample: with `a = "a"` and `b` a run of 201 identical characters,
the true overlap exceeds the 200-character search window, so re-stitching the
same continuation appends one extra character instead of being a no-op. -/
theorem stitch_responses_idem_counterexample :
    stitch_responses (stitch_responses ['a'] (List.replicate 201 'a')) (List.replicate 201 'a') ≠
      stitch_responses ['a'] (List.replicate 201 'a') := by decide

/-- Witness for `stitch_responses_idem_and_no_dup` at concrete inputs. -/
theorem stitch_responses_idem_witness :
    (("bcd".toList.length ≤ 200) ∧
      stitch_responses (stitch_responses "abc".toList "bcd".toList) "bcd".toList =
        stitch_responses "abc".toList "bcd".toList) ∧
    (("bc".toList).IsSuffix "abc".toList ∧ ("bc".toList).IsPrefix "bcd".toList ∧
      ∃ k, ("bc".toList).length ≤ k ∧
        stitch_responses "abc".toList "bcd".toList = "abc".toList ++ "bcd".toList.drop k) :=
  ⟨⟨by decide, stitch_responses_idem_and_no_dup.1 _ _ (by decide)⟩,
   ⟨by decide, by decide,
    stitch_responses_idem_and_no_dup.2 _ _ _ (by decide) (by decide) (by decide)⟩⟩

example :
    extract_json_candidate "xx[START_JSON] \x7b\"a\":1\x7d [END_JSON]yy".toList =
      "\x7b\"a\":1\x7d".toList := by decide

example :
    extract_json_candidate " ```json\n\x7b\"a\": 1\x7d\n``` ".toList =
      "\x7b\"a\": 1\x7d".toList := by decide

example :
    extract_json_candidate "noise \x7b\"a\": 1\x7d noise".toList =
      "\x7b\"a\": 1\x7d".toList := by decide

theorem isPrefixOf_cons_of_ne {c d : Char} (p l : List Char) (h : c ≠ d) :
    (c :: p).isPrefixOf (d :: l) = false := by
  simp [List.isPrefixOf, h]

theorem isPrefixOf_of_not_mem {c : Char} {l : List Char} (p : List Char) (h : c ∉ l) :
    (c :: p).isPrefixOf l = false := by
  cases l with
  | nil => rfl
  | cons d l' =>
    exact isPrefixOf_cons_of_ne p l' fun hcd => h (hcd ▸ List.mem_cons_self d l')

theorem pyFindGo_of_isPrefixOf {pat s : List Char} (h : pat.isPrefixOf s = true) (i : Nat) :
    pyFindGo pat s i = some i := by
  cases s <;> simp [pyFindGo, h]

theorem pyFindGo_append_of_not_mem {c : Char} {xs : List Char} (pat rest : List Char)
    (i : Nat) (hx : c ∉ xs) :
    pyFindGo (c :: pat) (xs ++ rest) i = pyFindGo (c :: pat) rest (i + xs.length) := by
  induction xs generalizing i with
  | nil => simp
  | cons d xs' ih =>
    have hcd : c ≠ d := fun hcd => hx (hcd ▸ List.mem_cons_self d xs')
    rw [List.cons_append, pyFindGo]
    simp only [isPrefixOf_cons_of_ne _ _ hcd, Bool.false_eq_true, if_false]
    rw [ih _ fun hm => hx (List.mem_cons_of_mem d hm)]
    congr 1
    simp [Nat.add_comm, Nat.add_assoc, Nat.add_left_comm]

theorem pyFindGo_none_of_no_match {pat s : List Char}
    (h : ∀ p, pat.isPrefixOf (s.drop p) = false) (i : Nat) :
    pyFindGo pat s i = none := by
  induction s generalizing i with
  | nil =>
    have h0 : pat.isPrefixOf ([] : List Char) = false := h 0
    rw [pyFindGo, h0]
    simp
  | cons c rest ih =>
    rw [pyFindGo]
    simp only [show pat.isPrefixOf (c :: rest) = false by simpa using h 0,
      Bool.false_eq_true, if_false]
    exact ih (fun p => by simpa using h (p + 1)) (i + 1)

theorem pyRFindGo_of_no_match {pat s : List Char}
    (h : ∀ p, pat.isPrefixOf (s.drop p) = false) (i : Nat) (acc : Option Nat) :
    pyRFindGo pat s i acc = acc := by
  induction s generalizing i acc with
  | nil =>
    have h0 : pat.isPrefixOf ([] : List Char) = false := h 0
    rw [pyRFindGo, h0]
    simp
  | cons c rest ih =>
    rw [pyRFindGo]
    simp only [show pat.isPrefixOf (c :: rest) = false by simpa using h 0,
      Bool.false_eq_true, if_false]
    exact ih (fun p => by simpa using h (p + 1)) (i + 1) acc

theorem pyRFindGo_last {pat s : List Char} {q : Nat}
    (hq : pat.isPrefixOf (s.drop q) = true)
    (h : ∀ p, q < p → pat.isPrefixOf (s.drop p) = false) (i : Nat) (acc : Option Nat) :
    pyRFindGo pat s i acc = some (i + q) := by
  induction s generalizing q i acc with
  | nil =>
    exfalso
    have h1 : pat.isPrefixOf ([] : List Char) = true := by simpa using hq
    have h2 : pat.isPrefixOf ([] : List Char) = false := by
      simpa using h (q + 1) (Nat.lt_succ_self q)
    rw [h1] at h2
    exact Bool.true_eq_false.mp h2
  | cons c rest ih =>
    cases q with
    | zero =>
      have h0 : pat.isPrefixOf (c :: rest) = true := by simpa using hq
      rw [pyRFindGo]
      simp only [h0, if_true]
      rw [pyRFindGo_of_no_match (fun p => by simpa using h (p + 1) (Nat.succ_pos p))]
      simp
    | succ q' =>
      rw [pyRFindGo]
      rw [@ih q' (by simpa using hq)
        (fun p hp => by simpa using h (p + 1) (by omega)) (i + 1) _]
      congr 1
      omega

theorem isPrefixOf_append_self (l t : List Char) : l.isPrefixOf (l ++ t) = true := by
  induction l with
  | nil => simp [List.isPrefixOf]
  | cons c l' ih => simp [List.isPrefixOf, ih]

theorem drop_append_len (A B : List Char) (k : Nat) :
    (A ++ B).drop (A.length + k) = B.drop k := by
  induction A with
  | nil => simp
  | cons a A' ih =>
    rw [List.cons_append, List.length_cons,
      show A'.length + 1 + k = (A'.length + k) + 1 by omega, List.drop_succ_cons]
    exact ih

theorem pyFind_startTag (pre R : List Char) (hpre : '[' ∉ pre) :
    pyFind (pre ++ (startTagChars ++ R)) startTagChars = some pre.length := by
  unfold pyFind
  rw [show startTagChars = '[' :: "START_JSON]".toList by decide]
  rw [pyFindGo_append_of_not_mem _ _ _ hpre]
  rw [pyFindGo_of_isPrefixOf (isPrefixOf_append_self _ R)]
  simp

theorem pyRFind_endTag (A post : List Char) (hpost : '[' ∉ post) :
    pyRFind (A ++ (endTagChars ++ post)) endTagChars = some A.length := by
  unfold pyRFind
  have hq : endTagChars.isPrefixOf ((A ++ (endTagChars ++ post)).drop A.length) = true := by
    rw [List.drop_left]
    exact isPrefixOf_append_self _ post
  have hafter : ∀ p, A.length < p →
      endTagChars.isPrefixOf ((A ++ (endTagChars ++ post)).drop p) = false := by
    intro p hp
    obtain ⟨k, hk, rfl⟩ : ∃ k, 1 ≤ k ∧ p = A.length + k :=
      ⟨p - A.length, by omega, by omega⟩
    rw [drop_append_len]
    obtain ⟨k', rfl⟩ : ∃ k', k = k' + 1 := ⟨k - 1, by omega⟩
    rw [show endTagChars ++ post = '[' :: ("END_JSON]".toList ++ post) by simp [endTagChars],
      List.drop_succ_cons]
    rw [show endTagChars = '[' :: "END_JSON]".toList by decide]
    refine isPrefixOf_of_not_mem _ fun hmem => ?_
    rcases List.mem_append.mp (List.drop_subset _ _ hmem) with h | h
    · revert h
      decide
    · exact hpost h
  rw [pyRFindGo_last hq hafter 0 none, Nat.zero_add]

theorem slice_middle (x y z : List Char) :
    pySlice ((x ++ y) ++ z) x.length (x.length + y.length) = y := by
  unfold pySlice
  rw [show x.length + y.length = (x ++ y).length by simp, List.take_left, List.drop_left]

/-- C4: extraction precedence of `parse_llm_json_output`.  Part one: any input
of the form `pre ++ [START_JSON] ++ mid ++ [END_JSON] ++ post` (where the
bracket character marking the tags occurs in no other position) is parsed as
`json.loads` of the stripped tagged block — `pre`, `mid` and `post` are
otherwise arbitrary, so in particular they may contain fenced code blocks:
the tagged block wins over any fence.  Part two: with no tag bracket in the
input at all, a stripped input of the shape ```` ```json <body> ``` ```` whose
stripped body is a `\x7b...\x7d` object is parsed as `json.loads` of that
stripped body. -/
theorem parse_llm_json_output_precedence :
    (∀ (J : Type) (loads : List Char → Option J) (pre mid post : List Char) (j : J),
      '[' ∉ pre → '[' ∉ mid → '[' ∉ post →
      loads (pyStrip mid) = some j →
      parse_llm_json_output loads
        (pre ++ startTagChars ++ mid ++ endTagChars ++ post) = some j) ∧
    (∀ (J : Type) (loads : List Char → Option J) (s body core : List Char) (j : J),
      '[' ∉ s →
      pyStrip s = "```json".toList ++ body ++ "```".toList →
      pyStrip body = '\x7b' :: core ++ ['\x7d'] →
      loads (pyStrip body) = some j →
      parse_llm_json_output loads s = some j) := by
  constructor
  · intro J loads pre mid post j hpre hmid hpost hload
    set s := pre ++ startTagChars ++ mid ++ endTagChars ++ post with hs
    have hfind : pyFind s startTagChars = some pre.length := by
      rw [show s = pre ++ (startTagChars ++ (mid ++ (endTagChars ++ post))) by
        simp [hs, List.append_assoc]]
      exact pyFind_startTag pre _ hpre
    have hrfind : pyRFind s endTagChars = some ((pre ++ startTagChars) ++ mid).length := by
      rw [show s = ((pre ++ startTagChars) ++ mid) ++ (endTagChars ++ post) by
        simp [hs, List.append_assoc]]
      exact pyRFind_endTag _ post hpost
    have h12 : startTagChars.length = 12 := by decide
    have hslice : pySlice s (pre.length + startTagChars.length)
        ((pre ++ startTagChars) ++ mid).length = mid := by
      rw [show s = ((pre ++ startTagChars) ++ mid) ++ (endTagChars ++ post) by
        simp [hs, List.append_assoc]]
      rw [show pre.length + startTagChars.length = (pre ++ startTagChars).length by simp]
      rw [show ((pre ++ startTagChars) ++ mid).length =
        (pre ++ startTagChars).length + mid.length by simp; omega]
      exact slice_middle _ _ _
    unfold parse_llm_json_output extract_json_candidate
    rw [hfind, hrfind]
    simp only []
    rw [if_pos (by simp only [List.length_append, h12]; omega)]
    rw [hslice, hload]
  · intro J loads s body core j hbr ht hb hload
    have hfind : pyFind s startTagChars = none := by
      unfold pyFind
      rw [show startTagChars = '[' :: "START_JSON]".toList by decide]
      refine pyFindGo_none_of_no_match (fun p => ?_) 0
      exact isPrefixOf_of_not_mem _ fun hmem => hbr (List.drop_subset _ _ hmem)
    have hrfind : pyRFind s endTagChars = none := by
      unfold pyRFind
      rw [show endTagChars = '[' :: "END_JSON]".toList by decide]
      refine pyRFindGo_of_no_match (fun p => ?_) 0 none
      exact isPrefixOf_of_not_mem _ fun hmem => hbr (List.drop_subset _ _ hmem)
    have hcand : extract_json_candidate s = jsonFallbackCandidate s := by
      unfold extract_json_candidate
      rw [hfind, hrfind]
    have hfence1 : "```json".toList.isPrefixOf (pyStrip s) = true := by
      rw [ht, List.append_assoc]
      exact isPrefixOf_append_self _ _
    have hfence2 : "```".toList.isSuffixOf (pyStrip s) = true := by
      rw [List.isSuffixOf_iff_suffix, ht]
      exact ⟨"```json".toList ++ body, rfl⟩
    have hlen3 : (pyStrip s).length - 3 = 7 + body.length := by
      rw [ht]; simp; omega
    have hslice : pySlice (pyStrip s) 7 (7 + body.length) = body := by
      rw [ht]
      have := slice_middle ("```json".toList) body ("```".toList)
      simpa using this
    have hufind : pyFind (pyStrip body) ['\x7b'] = some 0 := by
      unfold pyFind
      refine pyFindGo_of_isPrefixOf ?_ 0
      rw [hb]
      simp [List.isPrefixOf]
    have hurfind : pyRFind (pyStrip body) ['\x7d'] = some (core.length + 1) := by
      unfold pyRFind
      have hshape : pyStrip body = ('\x7b' :: core) ++ ['\x7d'] := by simpa using hb
      have hq : (['\x7d'] : List Char).isPrefixOf
          ((pyStrip body).drop ('\x7b' :: core).length) = true := by
        rw [hshape, List.drop_left]
        simp [List.isPrefixOf]
      have hafter : ∀ p, ('\x7b' :: core).length < p →
          (['\x7d'] : List Char).isPrefixOf ((pyStrip body).drop p) = false := by
        intro p hp
        obtain ⟨k, hk, rfl⟩ : ∃ k, 1 ≤ k ∧ p = ('\x7b' :: core).length + k :=
          ⟨p - ('\x7b' :: core).length, by omega, by omega⟩
        rw [hshape, drop_append_len]
        obtain ⟨k', rfl⟩ : ∃ k', k = k' + 1 := ⟨k - 1, by omega⟩
        rw [List.drop_succ_cons, List.drop_nil]
        rfl
      rw [pyRFindGo_last hq hafter 0 none]
      simp
    have huslice : pySlice (pyStrip body) 0 (core.length + 1 + 1) = pyStrip body := by
      unfold pySlice
      rw [List.drop_zero, List.take_of_length_le]
      rw [hb]
      simp
    unfold parse_llm_json_output
    rw [hcand]
    unfold jsonFallbackCandidate
    simp only [hfence1, hfence2, Bool.and_self, if_true, Bool.true_and, Bool.and_true]
    rw [hlen3, hslice, hufind, hurfind]
    simp only []
    rw [if_pos (by omega), huslice, hload]

/-- Witness for `parse_llm_json_output_precedence`: a concrete input holding
both a tagged block and a fenced block, parsed as the tagged block; and a
concrete fenced-only input, parsed as the fenced body. -/
theorem parse_llm_json_output_precedence_witness :
    parse_llm_json_output
      (fun t => if t = "\x7b\"a\": 1\x7d".toList then some (1 : Nat) else none)
      ("pre ```json x``` ".toList ++ startTagChars ++ " \x7b\"a\": 1\x7d ".toList ++
        endTagChars ++ "post".toList) = some 1 ∧
    parse_llm_json_output
      (fun t => if t = "\x7b\"b\": 2\x7d".toList then some (2 : Nat) else none)
      " ```json\n\x7b\"b\": 2\x7d\n``` ".toList = some 2 := by
  constructor
  · exact parse_llm_json_output_precedence.1 Nat _ _ _ _ 1
      (by decide) (by decide) (by decide) (by decide)
  · exact parse_llm_json_output_precedence.2 Nat _ _ "\n\x7b\"b\": 2\x7d\n".toList
      "\"b\": 2".toList 2 (by decide) (by decide) (by decide) (by decide)

/-- C10: `parse_llm_json_output` is total — for every input string it returns
either a parsed JSON value or `None`; the only exception `json.loads` raises
on string input (`JSONDecodeError`) is caught, so callers never see a parse
exception. -/
theorem parse_llm_json_output_total (J : Type) (loads : List Char → Option J)
    (s : List Char) :
    (∃ j, parse_llm_json_output loads s = some j) ∨
      parse_llm_json_output loads s = none := by
  cases h : parse_llm_json_output loads s with
  | none => exact Or.inr rfl
  | some j => exact Or.inl ⟨j, rfl⟩

theorem create_batches_go_records (fmtWeight : ℚ → List Char) (maxTok : Nat) :
    ∀ (rs : List Report) (acc : List Batch) (cur : Batch),
      ((create_batches_go fmtWeight maxTok rs acc cur).map Batch.records).flatten =
        (acc.map Batch.records).flatten ++ cur.records ++ rs
  | [], acc, cur => by
    rw [create_batches_go]
    by_cases h : cur.records.isEmpty
    · simp [h, List.isEmpty_iff.mp h]
    · simp [h]
  | r :: rs, acc, cur => by
    rw [create_batches_go]
    simp only []
    split
    · rw [create_batches_go_records fmtWeight maxTok rs _ _]
      by_cases h : cur.records.isEmpty
      · simp [h, List.isEmpty_iff.mp h, pushReport, emptyBatch]
      · simp [h, pushReport, emptyBatch]
    · rw [create_batches_go_records fmtWeight maxTok rs _ _]
      simp [pushReport]

theorem create_batches_go_tokens (fmtWeight : ℚ → List Char) (maxTok : Nat) :
    ∀ (rs : List Report) (acc : List Batch) (cur : Batch),
      (∀ r ∈ rs,
        count_tokens batchHeader + count_tokens (format_report fmtWeight r) ≤ maxTok) →
      (∀ b ∈ acc, b.tokens ≤ maxTok) →
      (cur.tokens ≤ maxTok ∨ cur.records = []) →
      ∀ b ∈ create_batches_go fmtWeight maxTok rs acc cur, b.tokens ≤ maxTok
  | [], acc, cur => by
    intro _ hacc hcur
    rw [create_batches_go]
    by_cases h : cur.records.isEmpty
    · simpa [h] using hacc
    · intro b hb
      rcases (show b ∈ acc ∨ b = cur by simpa [h] using hb) with hb' | rfl
      · exact hacc b hb'
      · rcases hcur with hc | hc
        · exact hc
        · exact absurd hc (by simpa [List.isEmpty_iff] using h)
  | r :: rs, acc, cur => by
    intro hfit hacc hcur
    rw [create_batches_go]
    simp only []
    split
    · refine create_batches_go_tokens fmtWeight maxTok rs _ _
        (fun r' hr' => hfit r' (List.mem_cons_of_mem r hr')) ?_ ?_
      · intro b hb
        by_cases h : cur.records.isEmpty
        · exact hacc b (by simpa [h] using hb)
        · rcases (show b ∈ acc ∨ b = cur by simpa [h] using hb) with hb' | rfl
          · exact hacc b hb'
          · rcases hcur with hc | hc
            · exact hc
            · exact absurd hc (by simpa [List.isEmpty_iff] using h)
      · left
        simpa [pushReport, emptyBatch] using hfit r (List.mem_cons_self r rs)
    · next hle =>
      refine create_batches_go_tokens fmtWeight maxTok rs _ _
        (fun r' hr' => hfit r' (List.mem_cons_of_mem r hr')) hacc ?_
      left
      simpa [pushReport] using Nat.le_of_not_lt hle

/-- C3 (amended): `_create_batches` splits the report list into batches so that
each report lands in exactly one batch (concatenating the batches' records in
order recovers the input list); and provided every single report row fits in a
fresh batch (header tokens plus row tokens within `max_context_tokens`), every
produced batch's accumulated token count stays within `max_context_tokens`.
Token counts use the packing estimator `_count_tokens` (`chars // 4`). -/
theorem create_batches_partition_and_bound (fmtWeight : ℚ → List Char) (maxTok : Nat)
    (reports : List Report) :
    ((create_batches fmtWeight maxTok reports).map Batch.records).flatten = reports ∧
    ((∀ r ∈ reports,
        count_tokens batchHeader + count_tokens (format_report fmtWeight r) ≤ maxTok) →
      ∀ b ∈ create_batches fmtWeight maxTok reports, b.tokens ≤ maxTok) := by
  constructor
  · rw [create_batches, create_batches_go_records]
    simp [emptyBatch]
  · intro hfit
    exact create_batches_go_tokens fmtWeight maxTok reports [] emptyBatch hfit
      (by simp) (Or.inr rfl)

/-- C3 counterexample: a single report whose row does not fit in the budget
is still emitted in a batch, and that batch exceeds `max_context_tokens`
(header 11 tokens + row 4 tokens = 15 > 5). -/
theorem create_batches_bound_counterexample :
    ¬ (∀ b ∈ create_batches (fun _ => "1.000".toList) 5
        [⟨"r".toList, "c".toList, 0, none, none, 1⟩], b.tokens ≤ 5) := by
  decide

/-- Witness for `create_batches_partition_and_bound` at a concrete input. -/
theorem create_batches_partition_and_bound_witness :
    ((create_batches (fun _ => "1.000".toList) 100
        [⟨"r".toList, "c".toList, 0, none, none, 1⟩]).map Batch.records).flatten =
      [⟨"r".toList, "c".toList, 0, none, none, 1⟩] ∧
    ∀ b ∈ create_batches (fun _ => "1.000".toList) 100
        [⟨"r".toList, "c".toList, 0, none, none, 1⟩], b.tokens ≤ 100 :=
  ⟨(create_batches_partition_and_bound _ 100 _).1,
   (create_batches_partition_and_bound _ 100 _).2 (by decide)⟩

theorem le_foldl_max (xs : List ℚ) : ∀ a, a ≤ xs.foldl max a := by
  induction xs with
  | nil => intro a; exact le_refl a
  | cons c xs ih =>
    intro a
    exact le_trans (le_max_left a c) (ih (max a c))

theorem mem_le_foldl_max {x : ℚ} {xs : List ℚ} (hx : x ∈ xs) :
    ∀ a, x ≤ xs.foldl max a := by
  induction xs with
  | nil => cases hx
  | cons c xs ih =>
    intro a
    rcases List.mem_cons.mp hx with rfl | hx'
    · exact le_trans (le_max_right a x) (le_foldl_max xs (max a x))
    · exact ih hx' (max a c)

theorem foldl_max_mem (xs : List ℚ) : ∀ a, xs.foldl max a ∈ a :: xs := by
  induction xs with
  | nil => intro a; exact List.mem_singleton.mpr rfl
  | cons c xs ih =>
    intro a
    rcases List.mem_cons.mp (ih (max a c)) with h | h
    · rcases max_choice a c with hm | hm
      · exact List.mem_cons.mpr (Or.inl (h.trans hm))
      · exact List.mem_cons.mpr (Or.inr (List.mem_cons.mpr (Or.inl (h.trans hm))))
    · exact List.mem_cons.mpr (Or.inr (List.mem_cons.mpr (Or.inr h)))

theorem le_pyMax {x : ℚ} {xs : List ℚ} (hx : x ∈ xs) : x ≤ pyMax xs := by
  cases xs with
  | nil => cases hx
  | cons c xs =>
    rcases List.mem_cons.mp hx with rfl | hx'
    · exact le_foldl_max xs x
    · exact mem_le_foldl_max hx' c

theorem pyMax_mem {xs : List ℚ} (h : xs ≠ []) : pyMax xs ∈ xs := by
  cases xs with
  | nil => exact absurd rfl h
  | cons c xs => exact foldl_max_mem xs c

/-- C8: on a nonempty report list with some positive occurrence, normalized
community weighting returns a permutation of the input in which each report's
weight is its occurrence (default 1.0) divided by the maximum occurrence, the
maximum resulting weight is 1, and the list is sorted by weight descending. -/
theorem apply_community_weights_spec (reports : List Report)
    (hne : reports ≠ [])
    (hpos : ∃ r ∈ reports, 0 < occurrence_of r) :
    (apply_community_weights true reports).Perm
      (reports.map fun r =>
        { r with weight := occurrence_of r / pyMax (reports.map occurrence_of) }) ∧
    (∀ r ∈ apply_community_weights true reports,
      r.weight = occurrence_of r / pyMax (reports.map occurrence_of)) ∧
    (∃ r ∈ apply_community_weights true reports, r.weight = 1) ∧
    (∀ r ∈ apply_community_weights true reports, r.weight ≤ 1) ∧
    (apply_community_weights true reports).Pairwise fun a b => b.weight ≤ a.weight := by
  obtain ⟨r0, hr0, hr0pos⟩ := hpos
  set maxW := pyMax (reports.map occurrence_of) with hmaxW
  have hmax_pos : 0 < maxW :=
    lt_of_lt_of_le hr0pos (le_pyMax (List.mem_map_of_mem occurrence_of hr0))
  have hweights :
      (reports.map fun r => { r with weight := occurrence_of r }).map Report.weight =
        reports.map occurrence_of := by
    rw [List.map_map]; rfl
  have hres : apply_community_weights true reports =
      (reports.map fun r => { r with weight := occurrence_of r / maxW }).mergeSort
        (fun a b => decide (b.weight ≤ a.weight)) := by
    unfold apply_community_weights
    rw [if_neg (by simpa [List.isEmpty_iff] using hne)]
    simp only [if_true, hweights, ← hmaxW, if_pos hmax_pos, List.map_map]
    rfl
  have hperm : (apply_community_weights true reports).Perm
      (reports.map fun r => { r with weight := occurrence_of r / maxW }) := by
    rw [hres]; exact List.mergeSort_perm _ _
  refine ⟨hperm, ?_, ?_, ?_, ?_⟩
  · intro r hr
    obtain ⟨r', hr', hr'eq⟩ := List.mem_map.mp (hperm.mem_iff.mp hr)
    rw [← hr'eq]
    rfl
  · have hmem : maxW ∈ reports.map occurrence_of :=
      pyMax_mem (by simpa using hne)
    obtain ⟨r', hr', hr'eq⟩ := List.mem_map.mp hmem
    refine ⟨{ r' with weight := occurrence_of r' / maxW }, ?_, ?_⟩
    · exact hperm.mem_iff.mpr (List.mem_map_of_mem _ hr')
    · show occurrence_of r' / maxW = 1
      rw [hr'eq, div_self (ne_of_gt hmax_pos)]
  · intro r hr
    obtain ⟨r', hr', hr'eq⟩ := List.mem_map.mp (hperm.mem_iff.mp hr)
    have : r.weight = occurrence_of r' / maxW := by rw [← hr'eq]
    rw [this]
    exact div_le_one_of_le₀ (le_pyMax (List.mem_map_of_mem occurrence_of hr'))
      (le_of_lt hmax_pos)
  · rw [hres]
    have hs := @List.sorted_mergeSort Report
      (fun a b : Report => decide (b.weight ≤ a.weight))
      (fun a b c h1 h2 => by
        simp only [decide_eq_true_eq] at h1 h2 ⊢
        exact le_trans h2 h1)
      (fun a b => by
        simp only [Bool.or_eq_true, decide_eq_true_eq]
        exact le_total b.weight a.weight)
      (reports.map fun r => { r with weight := occurrence_of r / maxW })
    exact hs.imp fun h => by simpa using h

/-- Witness for `apply_community_weights_spec` at a concrete input. -/
theorem apply_community_weights_spec_witness :
    ([(⟨"a".toList, "ca".toList, 0, none, some 2, 0⟩ : Report),
      ⟨"b".toList, "cb".toList, 0, none, none, 0⟩] ≠ []) ∧
    (∀ r ∈ apply_community_weights true
        [(⟨"a".toList, "ca".toList, 0, none, some 2, 0⟩ : Report),
         ⟨"b".toList, "cb".toList, 0, none, none, 0⟩],
      r.weight ≤ 1) := by
  refine ⟨by decide, ?_⟩
  exact (apply_community_weights_spec _ (by decide)
    ⟨⟨"a".toList, "ca".toList, 0, none, some 2, 0⟩, by decide, by decide⟩).2.2.2.1

/-- C9 counterexample: the query "show me specific details about Alice" does
contain a local keyword, yet the router as constructed selects GLOBAL, because
`__init__` never initializes a local retriever and the keyword check is gated
on its availability. -/
theorem auto_select_mode_counterexample :
    anyKeyword localKeywords (pyLower "show me specific details about Alice".toList) = true ∧
    route (routerInit SearchMode.AUTO true true)
      "show me specific details about Alice".toList none = SearchMode.GLOBAL := by
  decide

/-- C9 (amended): in auto mode, a global keyword selects GLOBAL only when the
global retriever is initialized; a local keyword selects LOCAL only when a
local retriever is initialized; and since `__init__` never initializes a local
retriever, every auto-routed query — "show me specific details about Alice"
included — resolves to GLOBAL. -/
theorem auto_select_mode_spec :
    (∀ (r : SearchModeRouter) (q : List Char),
      anyKeyword globalKeywords (pyLower q) = true → r.globalAvailable = true →
      auto_select_mode r q = SearchMode.GLOBAL) ∧
    (∀ (r : SearchModeRouter) (q : List Char),
      (anyKeyword globalKeywords (pyLower q) && r.globalAvailable) = false →
      anyKeyword localKeywords (pyLower q) = true → r.localAvailable = true →
      auto_select_mode r q = SearchMode.LOCAL) ∧
    (∀ (hasCommunityStore globalInitOk : Bool) (q : List Char),
      route (routerInit SearchMode.AUTO hasCommunityStore globalInitOk) q none =
        SearchMode.GLOBAL) := by
  refine ⟨?_, ?_, ?_⟩
  · intro r q hg hav
    simp [auto_select_mode, hg, hav]
  · intro r q hng hl hav
    simp [auto_select_mode, hng, hl, hav]
  · intro cs ok q
    cases h : anyKeyword globalKeywords (pyLower q) <;> cases cs <;> cases ok <;>
      simp [route, routerInit, auto_select_mode, h]

/-- Witness for `auto_select_mode_spec`: with a (hypothetical) initialized
local retriever the S5 query would select LOCAL, and through the real
constructor the summary query selects GLOBAL. -/
theorem auto_select_mode_spec_witness :
    auto_select_mode ⟨SearchMode.AUTO, false, true⟩
      "show me specific details about Alice".toList = SearchMode.LOCAL ∧
    route (routerInit SearchMode.AUTO true true)
      "give me an overall summary".toList none = SearchMode.GLOBAL :=
  ⟨auto_select_mode_spec.2.1 _ _ (by decide) (by decide) (by decide),
   auto_select_mode_spec.2.2 true true _⟩

/-- C7: the map phase is error-isolated — the collected results hold exactly
one `MapResult` per batch; a batch whose task raised contributes a result
with empty `key_points` (and its own `batch_id` and token count) instead of
failing the query, and a batch whose task succeeded contributes that task's
result unchanged. -/
theorem process_batch_isolation (task : Nat → Batch → Except (List Char) MapResult)
    (batches : List Batch) :
    (process_batch task batches).length = batches.length ∧
    (∀ i b, batches[i]? = some b →
      (∀ e, task i b = Except.error e →
        (process_batch task batches)[i]? = some ⟨i, [], b.tokens, 0⟩) ∧
      (∀ r, task i b = Except.ok r →
        (process_batch task batches)[i]? = some r)) := by
  constructor
  · simp [process_batch]
  · intro i b hb
    constructor
    · intro e he
      simp [process_batch, List.getElem?_map, List.getElem?_enum, hb, he]
    · intro r hr
      simp [process_batch, List.getElem?_map, List.getElem?_enum, hb, hr]

/-- Witness for `process_batch_isolation`: two batches, the first task raises
and yields an empty-key-point result, the second succeeds unchanged. -/
theorem process_batch_isolation_witness :
    ([(⟨"c0".toList, [], 9, []⟩ : Batch), ⟨"c1".toList, [], 7, []⟩][0]? =
        some ⟨"c0".toList, [], 9, []⟩) ∧
    (process_batch
        (fun i b => if i = 0 then Except.error "boom".toList else Except.ok ⟨i, [], b.tokens, 0⟩)
        [⟨"c0".toList, [], 9, []⟩, ⟨"c1".toList, [], 7, []⟩])[0]? =
      some ⟨0, [], 9, 0⟩ ∧
    (process_batch
        (fun i b => if i = 0 then Except.error "boom".toList else Except.ok ⟨i, [], b.tokens, 0⟩)
        [⟨"c0".toList, [], 9, []⟩, ⟨"c1".toList, [], 7, []⟩])[1]? =
      some ⟨1, [], 7, 0⟩ :=
  ⟨by decide,
   ((process_batch_isolation _ _).2 0 ⟨"c0".toList, [], 9, []⟩ (by decide)).1
      "boom".toList (by rfl),
   ((process_batch_isolation _ _).2 1 ⟨"c1".toList, [], 7, []⟩ (by decide)).2
      ⟨1, [], 7, 0⟩ (by rfl)⟩

namespace Drift

theorem trimLoop_eq_self {α : Type} (count : List α → Nat) (maxTokens fuel : Nat)
    (l : List α) (h : count l ≤ maxTokens) :
    trimLoop count maxTokens fuel l = l := by
  cases fuel with
  | zero => rfl
  | succ fuel => simp [trimLoop, Nat.not_lt_of_le h]

theorem trimLoop_le_or_nil {α : Type} (count : List α → Nat) (maxTokens : Nat) :
    ∀ (fuel : Nat) (l : List α), l.length ≤ fuel →
      count (trimLoop count maxTokens fuel l) ≤ maxTokens ∨
        trimLoop count maxTokens fuel l = []
  | 0, l, hl => by
    have : l = [] := List.length_eq_zero.mp (Nat.le_zero.mp hl)
    exact Or.inr (this ▸ rfl)
  | fuel + 1, l, hl => by
    rw [trimLoop]
    split
    · next hcond =>
      refine trimLoop_le_or_nil count maxTokens fuel l.dropLast ?_
      have hne : l ≠ [] := by
        simpa [List.isEmpty_iff] using hcond.1
      have : l.length - 1 ≤ fuel := by omega
      simpa [List.length_dropLast] using this
    · next hcond =>
      rcases not_and_or.mp hcond with h | h
      · exact Or.inr (by simpa [List.isEmpty_iff] using h)
      · exact Or.inl (Nat.le_of_not_lt h)

theorem get_token_count_empty_comms_le (x : SearchContext) :
    get_token_count { x with communities := [] } ≤ get_token_count x := by
  unfold get_token_count
  apply Nat.div_le_div_right
  simp

theorem get_token_count_empty_entities_le (x : SearchContext) :
    get_token_count { x with entities := [] } ≤ get_token_count x := by
  unfold get_token_count
  apply Nat.div_le_div_right
  simp

/-- C5 (amended): `trim_to_token_limit(ctx, T)` brings the token count within
`T` whenever the query alone fits the budget (`len(query) // 4 ≤ T`); the
loops drop text units first, then entities, then communities, but the query
itself is never dropped. -/
theorem trim_to_token_limit_le (c : SearchContext) (maxTokens : Nat)
    (hq : c.query.length / 4 ≤ maxTokens) :
    get_token_count (trim_to_token_limit c maxTokens) ≤ maxTokens := by
  unfold trim_to_token_limit
  split
  · next h => exact h
  · next h =>
    set TU := trimLoop (fun l => get_token_count { c with text_units := l })
      maxTokens c.text_units.length c.text_units with hTU
    set t1 : SearchContext := { c with text_units := TU } with ht1
    set EN := trimLoop (fun l => get_token_count { t1 with entities := l })
      maxTokens t1.entities.length t1.entities with hEN
    set t2 : SearchContext := { t1 with entities := EN } with ht2
    set CO := trimLoop (fun l => get_token_count { t2 with communities := l })
      maxTokens t2.communities.length t2.communities with hCO
    show get_token_count { t2 with communities := CO } ≤ maxTokens
    rcases trimLoop_le_or_nil (fun l => get_token_count { t2 with communities := l })
        maxTokens t2.communities.length t2.communities (le_refl _) with h3 | h3
    · exact h3
    · rw [hCO, h3]
      rcases trimLoop_le_or_nil (fun l => get_token_count { t1 with entities := l })
          maxTokens t1.entities.length t1.entities (le_refl _) with h2 | h2
      · calc get_token_count { t2 with communities := [] }
            ≤ get_token_count t2 := get_token_count_empty_comms_le t2
          _ ≤ maxTokens := h2
      · rcases trimLoop_le_or_nil (fun l => get_token_count { c with text_units := l })
            maxTokens c.text_units.length c.text_units (le_refl _) with h1 | h1
        · calc get_token_count { t2 with communities := [] }
              ≤ get_token_count t2 := get_token_count_empty_comms_le t2
            _ = get_token_count { t1 with entities := EN } := rfl
            _ = get_token_count { t1 with entities := [] } := by rw [hEN, h2]
            _ ≤ get_token_count t1 := get_token_count_empty_entities_le t1
            _ ≤ maxTokens := h1
        · have hTUnil : TU = [] := hTU.trans h1
          have hENnil : EN = [] := hEN.trans h2
          have ht2e : t2 = { c with text_units := [], entities := [] } := by
            rw [ht2, hENnil, ht1, hTUnil]
          rw [ht2e]
          show get_token_count { c with text_units := [], entities := [], communities := [] }
            ≤ maxTokens
          unfold get_token_count
          simpa using hq

/-- C5 counterexample: a context whose query alone exceeds the budget is
returned with all three lists exhausted but still over the limit
(8-character query = 2 tokens > budget 1). -/
theorem trim_to_token_limit_counterexample :
    ¬ (get_token_count (trim_to_token_limit ⟨"qqqqqqqq".toList, [], [], []⟩ 1) ≤ 1) := by
  decide

/-- Witness for `trim_to_token_limit_le` at a concrete input: a context with
one text unit is trimmed to within a budget of 2 tokens. -/
theorem trim_to_token_limit_le_witness :
    ("qqqqqqqq".toList.length / 4 ≤ 2) ∧
      get_token_count
        (trim_to_token_limit
          ⟨"qqqqqqqq".toList, [], [], [⟨"t".toList, "some unit text".toList⟩]⟩ 2) ≤ 2 :=
  ⟨by decide, trim_to_token_limit_le _ 2 (by decide)⟩

end Drift

namespace Ingest

theorem add_documents_processed_files (hash : List Char → List Char)
    (chunker : List Doc → List (List Char))
    (extract : List Char → Option ExtractionResult)
    (summarize : List Char → Option CommunitySummary)
    (cluster : List XRelationship → List Community)
    (cfg : Bool) (t : Tables) (docs : List Doc) :
    (add_documents hash chunker extract summarize cluster cfg t docs).1.processed_files =
      t.processed_files ++
        ((docs.filter fun d =>
            decide (calc_document_hash hash d ∉ t.processed_files.map ProcessedFile.hash)).map
          fun d => ProcessedFile.mk d.sourcePath (calc_document_hash hash d) d.originalPath) := by
  simp only [add_documents]
  split
  · next h =>
    rw [List.isEmpty_iff.mp h]
    simp
  · rfl

theorem add_documents_hash_mem (hash : List Char → List Char)
    (chunker : List Doc → List (List Char))
    (extract : List Char → Option ExtractionResult)
    (summarize : List Char → Option CommunitySummary)
    (cluster : List XRelationship → List Community)
    (cfg : Bool) (t : Tables) (docs : List Doc) {d : Doc} (hd : d ∈ docs) :
    calc_document_hash hash d ∈
      (add_documents hash chunker extract summarize cluster cfg t docs).1.processed_files.map
        ProcessedFile.hash := by
  rw [add_documents_processed_files, List.map_append]
  by_cases hmem : calc_document_hash hash d ∈ t.processed_files.map ProcessedFile.hash
  · exact List.mem_append.mpr (Or.inl hmem)
  · refine List.mem_append.mpr (Or.inr ?_)
    rw [List.map_map]
    exact List.mem_map.mpr ⟨d, List.mem_filter.mpr ⟨hd, by simpa using hmem⟩, rfl⟩

/-- A run over documents whose hashes are all recorded already returns before
extraction: no table changes and zero LLM calls. -/
theorem add_documents_no_new (hash : List Char → List Char)
    (chunker : List Doc → List (List Char))
    (extract : List Char → Option ExtractionResult)
    (summarize : List Char → Option CommunitySummary)
    (cluster : List XRelationship → List Community)
    (cfg : Bool) (t : Tables) (docs : List Doc)
    (hall : ∀ d ∈ docs,
      calc_document_hash hash d ∈ t.processed_files.map ProcessedFile.hash) :
    add_documents hash chunker extract summarize cluster cfg t docs = (t, 0) := by
  have hfilter : docs.filter (fun d =>
      decide (calc_document_hash hash d ∉ t.processed_files.map ProcessedFile.hash)) = [] := by
    rw [List.filter_eq_nil_iff]
    intro d hd
    simpa using hall d hd
  simp only [add_documents]
  rw [hfilter]
  rfl

/-- C1: ingestion is idempotent — a second `add_documents` run over the same
documents and tables leaves every persisted table exactly as the first run
left it and issues zero LLM calls, because every document's hash is already
in the ProcessedFile table and the run returns before extraction. -/
theorem add_documents_idempotent (hash : List Char → List Char)
    (chunker : List Doc → List (List Char))
    (extract : List Char → Option ExtractionResult)
    (summarize : List Char → Option CommunitySummary)
    (cluster : List XRelationship → List Community)
    (cfg : Bool) (t : Tables) (docs : List Doc) :
    add_documents hash chunker extract summarize cluster cfg
        (add_documents hash chunker extract summarize cluster cfg t docs).1 docs =
      ((add_documents hash chunker extract summarize cluster cfg t docs).1, 0) :=
  add_documents_no_new hash chunker extract summarize cluster cfg _ docs
    fun _ hd => add_documents_hash_mem hash chunker extract summarize cluster cfg t docs hd

theorem dedupByGo_key_not_mem {α β : Type} [DecidableEq β] (key : α → β) :
    ∀ (seen : List β) (l : List α) (x : α), x ∈ dedupByGo key seen l → key x ∉ seen
  | seen, [], x, hx => absurd hx (List.not_mem_nil x)
  | seen, y :: ys, x, hx => by
    rw [dedupByGo] at hx
    split at hx
    · exact dedupByGo_key_not_mem key seen ys x hx
    · next hy =>
      rcases List.mem_cons.mp hx with rfl | hx'
      · exact hy
      · have := dedupByGo_key_not_mem key (key y :: seen) ys x hx'
        exact fun hmem => this (List.mem_cons_of_mem _ hmem)

theorem dedupByGo_pairwise {α β : Type} [DecidableEq β] (key : α → β) :
    ∀ (seen : List β) (l : List α),
      (dedupByGo key seen l).Pairwise fun a b => key a ≠ key b
  | seen, [] => List.Pairwise.nil
  | seen, y :: ys => by
    rw [dedupByGo]
    split
    · exact dedupByGo_pairwise key seen ys
    · refine List.Pairwise.cons ?_ (dedupByGo_pairwise key (key y :: seen) ys)
      intro b hb
      have := dedupByGo_key_not_mem key (key y :: seen) ys b hb
      exact fun hyb => this (hyb ▸ List.mem_cons_self _ _)

theorem dedupBy_pairwise {α β : Type} [DecidableEq β] (key : α → β) (l : List α) :
    (dedupBy key l).Pairwise fun a b => key a ≠ key b :=
  dedupByGo_pairwise key [] l

theorem countP_key_eq_one {α β : Type} [DecidableEq β] (key : α → β) :
    ∀ (l : List α), (l.Pairwise fun a b => key a ≠ key b) →
      ∀ {x : α}, x ∈ l → l.countP (fun y => decide (key y = key x)) = 1
  | [], _, x, hx => absurd hx (List.not_mem_nil x)
  | a :: l, hp, x, hx => by
    have ha : ∀ b ∈ l, key a ≠ key b := fun b hb => List.rel_of_pairwise_cons hp hb
    have hp' : l.Pairwise fun a b => key a ≠ key b := hp.of_cons
    rw [List.countP_cons]
    rcases List.mem_cons.mp hx with rfl | hx'
    · have hzero : l.countP (fun y => decide (key y = key x)) = 0 := by
        rw [List.countP_eq_zero]
        intro b hb
        simpa using (ha b hb).symm
      simp [hzero]
    · have hone := countP_key_eq_one key l hp' hx'
      have hne : key a ≠ key x := ha x hx'
      simp [hone, hne]

/-- The entities table after a run is either unchanged or the
first-occurrence deduplication of old rows plus extracted rows on the exact
`(name, type)` key. -/
theorem add_documents_entities_cases (hash : List Char → List Char)
    (chunker : List Doc → List (List Char))
    (extract : List Char → Option ExtractionResult)
    (summarize : List Char → Option CommunitySummary)
    (cluster : List XRelationship → List Community)
    (cfg : Bool) (t : Tables) (docs : List Doc) :
    (add_documents hash chunker extract summarize cluster cfg t docs).1.entities =
        t.entities ∨
      ∃ ex : List XEntity,
        (add_documents hash chunker extract summarize cluster cfg t docs).1.entities =
          dedupBy (fun e => (e.name, e.type)) (t.entities ++ ex) := by
  simp only [add_documents]
  split
  · exact Or.inl rfl
  · show (if _ then t.entities else _) = t.entities ∨ _
    split
    · exact Or.inl rfl
    · exact Or.inr ⟨_, rfl⟩

/-- C6 (amended): entity identity is the exact, case-sensitive `(name, type)`
pair — when the pre-existing table has no duplicate `(name, type)` key, after
ingestion any `(name, type)` present in the Entity table occurs in exactly
one record (the table is a first-occurrence deduplicated union); entities
differing only in letter case are distinct records (see the counterexample). -/
theorem add_documents_entity_key_unique (hash : List Char → List Char)
    (chunker : List Doc → List (List Char))
    (extract : List Char → Option ExtractionResult)
    (summarize : List Char → Option CommunitySummary)
    (cluster : List XRelationship → List Community)
    (cfg : Bool) (t : Tables) (docs : List Doc)
    (hnodup : t.entities.Pairwise fun a b => (a.name, a.type) ≠ (b.name, b.type)) :
    ∀ e ∈ (add_documents hash chunker extract summarize cluster cfg t docs).1.entities,
      (add_documents hash chunker extract summarize cluster cfg t docs).1.entities.countP
        (fun y => decide ((y.name, y.type) = (e.name, e.type))) = 1 := by
  intro e he
  rcases add_documents_entities_cases hash chunker extract summarize cluster cfg t docs
    with hcase | ⟨ex, hcase⟩
  · rw [hcase] at he ⊢
    exact countP_key_eq_one (fun e : XEntity => (e.name, e.type)) t.entities hnodup he
  · rw [hcase] at he ⊢
    exact countP_key_eq_one (fun e : XEntity => (e.name, e.type)) _
      (dedupBy_pairwise _ _) he

/-- C6 counterexample: two extracted entities equal up to letter case,
`("Alice","Person")` and `("alice","person")`, are both persisted — the table
holds two records matching case-insensitively, not one. -/
theorem add_documents_entity_case_counterexample :
    ((add_documents (fun s => s) (fun _ => [['x']])
        (fun _ => some ⟨[⟨"Alice".toList, "Person".toList⟩,
                         ⟨"alice".toList, "person".toList⟩], []⟩)
        (fun _ => none) (fun _ => []) false ⟨[], [], [], [], []⟩
        [⟨"d".toList, "p".toList, "p".toList⟩]).1.entities.countP
      fun e => decide (pyLower e.name = "alice".toList) &&
        decide (pyLower e.type = "person".toList)) = 2 := by
  decide

/-- Witness for `add_documents_entity_key_unique` on the concrete run of the
counterexample: the exact key `("Alice","Person")` occurs in exactly one
record. -/
theorem add_documents_entity_key_unique_witness :
    (⟨"Alice".toList, "Person".toList⟩ : XEntity) ∈
      (add_documents (fun s => s) (fun _ => [['x']])
        (fun _ => some ⟨[⟨"Alice".toList, "Person".toList⟩,
                         ⟨"alice".toList, "person".toList⟩], []⟩)
        (fun _ => none) (fun _ => []) false ⟨[], [], [], [], []⟩
        [⟨"d".toList, "p".toList, "p".toList⟩]).1.entities ∧
    ((add_documents (fun s => s) (fun _ => [['x']])
        (fun _ => some ⟨[⟨"Alice".toList, "Person".toList⟩,
                         ⟨"alice".toList, "person".toList⟩], []⟩)
        (fun _ => none) (fun _ => []) false ⟨[], [], [], [], []⟩
        [⟨"d".toList, "p".toList, "p".toList⟩]).1.entities.countP
      fun y => decide ((y.name, y.type) = ("Alice".toList, "Person".toList))) = 1 :=
  ⟨by decide,
   add_documents_entity_key_unique (fun s => s) (fun _ => [['x']])
      (fun _ => some ⟨[⟨"Alice".toList, "Person".toList⟩,
                       ⟨"alice".toList, "person".toList⟩], []⟩)
      (fun _ => none) (fun _ => []) false ⟨[], [], [], [], []⟩
      [⟨"d".toList, "p".toList, "p".toList⟩] List.Pairwise.nil
      ⟨"Alice".toList, "Person".toList⟩ (by decide)⟩

end Ingest

end GraphRag
